import Mathlib

/-!
Verification of `rollback.py`: a scoped callback-registration utility.

The Python module keeps a stack of frames (the `Callback` namedtuple with
fields `callback`, `success`, `failure`, in that order); `State.__enter__`
pushes a fresh frame, the registration methods `failure`/`success`/`callback`
append to the corresponding list of the top frame, and `State.__exit__` runs
the failure list (when an exception type is present) or the success list
(otherwise) in reversed registration order, then the unconditional `callback`
list in reversed registration order, then pops the top frame and implicitly
returns `None`.

Shallow embedding conventions:
  - registered actions are opaque values of a type `α`; invoking an action is
    observable only through the trace of invoked actions that an operation
    returns, in invocation order;
  - Python's list `self.stack` is represented head-first: the head of
    `State.stack` is Python's `self.stack[-1]` (the top frame), so `append`
    becomes cons and `pop` becomes taking the tail;
  - an operation that would raise `IndexError` on the empty stack returns
    `none`;
  - an action may itself raise when invoked; this is modelled by a predicate
    `raises : α → Bool` handed to the exit protocol, and an exit during which
    an invoked action raised is an `ExitRes.raise` result (the Python
    exception propagates out of `__exit__` before `self.stack.pop()` runs);
  - `__exit__` takes the three arguments `exc_type, exc_value, traceback` of
    arbitrary types; only `exc_type is None` is ever inspected, which the
    embedding renders as `Option.isSome`;
  - the `None` implicitly returned by a completed `__exit__` (the falsy value
    that tells the context-manager protocol not to suppress the exception) is
    the `Option Unit` value `none` carried by `ExitRes.ok`.
-/

/-- The per-scope frame: `Callback = namedtuple('Callback', ('callback', 'success', 'failure'))`.
Field order follows the source. -/
structure Callback (α : Type) where
  callback : List α
  success : List α
  failure : List α
deriving DecidableEq, Repr

/-- The context-manager state: `self.stack`, a list of frames, top frame first
(Python's `self.stack[-1]` is the head). -/
structure State (α : Type) where
  stack : List (Callback α)
deriving DecidableEq, Repr

/-- `State.__init__`: `self.stack = [Callback([], [], [])]` — a single root frame. -/
def State.init (α : Type) : State α := ⟨[⟨[], [], []⟩]⟩

/-- `State.failure(self, c)`: `self.stack[-1].failure.append(c)`.
Returns the (empty) trace of invoked actions and the new state; `none` models
the `IndexError` raised by `self.stack[-1]` on an empty stack. -/
def State.failure (s : State α) (c : α) : Option (List α × State α) :=
  match s.stack with
  | [] => none
  | f :: rest => some ([], ⟨{ f with failure := f.failure ++ [c] } :: rest⟩)

/-- `State.success(self, c)`: `self.stack[-1].success.append(c)`. -/
def State.success (s : State α) (c : α) : Option (List α × State α) :=
  match s.stack with
  | [] => none
  | f :: rest => some ([], ⟨{ f with success := f.success ++ [c] } :: rest⟩)

/-- `State.callback(self, c)`: `self.stack[-1].callback.append(c)`. -/
def State.callback (s : State α) (c : α) : Option (List α × State α) :=
  match s.stack with
  | [] => none
  | f :: rest => some ([], ⟨{ f with callback := f.callback ++ [c] } :: rest⟩)

/-- `State.__enter__`: `self.stack.append(Callback([], [], []))`. Never fails. -/
def State.enter (s : State α) : State α := ⟨⟨[], [], []⟩ :: s.stack⟩

/-- Outcome of `State.__exit__`:
  - `raise invoked stack`: an invoked action raised; its exception propagates
    out of `__exit__`, `invoked` lists the actions invoked up to and including
    the raising one, and `stack` is the (unpopped) frame stack;
  - `ok invoked stack ret`: every action ran; `invoked` is the full invocation
    trace, `stack` the popped frame stack, and `ret` the value `__exit__`
    returns to the context-manager protocol (always `none`, Python's `None`). -/
inductive ExitRes (α : Type) where
  | raise (invoked : List α) (stack : List (Callback α))
  | ok (invoked : List α) (stack : List (Callback α)) (ret : Option Unit)
deriving DecidableEq, Repr

/-- Run `for callback in l: callback()` on an already-reversed list `l`:
returns the actions invoked in order and whether one of them raised (stopping
right there, as a propagating Python exception does). -/
def runUntilRaise (raises : α → Bool) : List α → List α × Bool
  | [] => ([], false)
  | a :: rest =>
    if raises a then ([a], true)
    else
      let r := runUntilRaise raises rest
      (a :: r.1, r.2)

/-- `State.__exit__(self, exc_type, exc_value, traceback)`:

    if not exc_type is None:
        for callback in reversed(self.stack[-1].failure): callback()
    else:
        for callback in reversed(self.stack[-1].success): callback()
    for callback in reversed(self.stack[-1].callback): callback()
    self.stack.pop()

`exc_value` and `traceback` are accepted (with arbitrary types) and never
used, exactly as in the source. `none` models the `IndexError` from
`self.stack[-1]` on an empty stack. -/
def State.exit (s : State α) (raises : α → Bool) (exc_type : Option τ)
    (exc_value : υ) (traceback : β) : Option (ExitRes α) :=
  match s.stack with
  | [] => none
  | f :: rest =>
    let first :=
      if exc_type.isSome then runUntilRaise raises f.failure.reverse
      else runUntilRaise raises f.success.reverse
    if first.2 then some (.raise first.1 (f :: rest))
    else
      let second := runUntilRaise raises f.callback.reverse
      if second.2 then some (.raise (first.1 ++ second.1) (f :: rest))
      else some (.ok (first.1 ++ second.1) rest none)

/-- A registration call, for reasoning about arbitrary registration sequences. -/
inductive RegOp (α : Type) where
  | succ (a : α)
  | fail (a : α)
  | call (a : α)
deriving DecidableEq, Repr

/-- Perform one registration call on the state. -/
def regStep (s : State α) : RegOp α → Option (List α × State α)
  | .succ a => s.success a
  | .fail a => s.failure a
  | .call a => s.callback a

/-- Perform a sequence of registration calls, accumulating the invocation
trace (registration never invokes anything, so the trace stays empty). -/
def applyOps : State α → List (RegOp α) → Option (List α × State α)
  | s, [] => some ([], s)
  | s, op :: rest =>
    match regStep s op with
    | none => none
    | some (t, s') =>
      match applyOps s' rest with
      | none => none
      | some (t', s'') => some (t ++ t', s'')

/-- The success actions of a registration sequence, in registration order. -/
def succRegs : List (RegOp α) → List α
  | [] => []
  | .succ a :: r => a :: succRegs r
  | _ :: r => succRegs r

/-- The failure actions of a registration sequence, in registration order. -/
def failRegs : List (RegOp α) → List α
  | [] => []
  | .fail a :: r => a :: failRegs r
  | _ :: r => failRegs r

/-- The unconditional actions of a registration sequence, in registration order. -/
def callRegs : List (RegOp α) → List α
  | [] => []
  | .call a :: r => a :: callRegs r
  | _ :: r => callRegs r

/-- Concrete actions for the test scenarios: a success, failure or
unconditional counter-bumping action, tagged with an index. -/
inductive Act where
  | sA : Nat → Act
  | fA : Nat → Act
  | cA : Nat → Act
deriving DecidableEq, Repr

/-- Add one invocation to the `(s, f, c)` counter triple, as the test
suite's counter closures do. -/
def tallyOne (t : Nat × Nat × Nat) : Act → Nat × Nat × Nat
  | .sA _ => (t.1 + 1, t.2.1, t.2.2)
  | .fA _ => (t.1, t.2.1 + 1, t.2.2)
  | .cA _ => (t.1, t.2.1, t.2.2 + 1)

/-- The `(s, f, c)` counters after invoking a trace of actions, starting
from `(0, 0, 0)`. -/
def tally (l : List Act) : Nat × Nat × Nat := l.foldl tallyOne (0, 0, 0)

/-- An action never raises: every counter-bumping scenario action returns
normally. -/
def noRaise : Act → Bool := fun _ => false

/-- The registration sequence of the `test_order` scenario:
`[failure₁, callback₁, success₁, callback₂, failure₂]`. -/
def orderOps : List (RegOp Act) :=
  [.fail (.fA 1), .call (.cA 1), .succ (.sA 1), .call (.cA 2), .fail (.fA 2)]

/-- The `test_nested` scenario: on a fresh state, enter the outer scope and
register `success₁` and `callback₁`; enter the inner scope and register
`success₂`, `failure₂` and `callback₂`; exit the inner scope via an error;
register `failure₃` on the (again-top) outer frame; exit the outer scope
normally. Returns the inner exit's invocation trace and the outer exit's
invocation trace. -/
def scenarioNested : Option (List Act × List Act) :=
  (applyOps (State.init Act).enter [.succ (.sA 1), .call (.cA 1)]).bind fun r1 =>
  (applyOps r1.2.enter [.succ (.sA 2), .fail (.fA 2), .call (.cA 2)]).bind fun r2 =>
  (State.exit r2.2 noRaise (some ()) () ()).bind fun e1 =>
  match e1 with
  | .raise _ _ => none
  | .ok inv1 st1 _ =>
    (State.failure ⟨st1⟩ (.fA 3)).bind fun r3 =>
    (State.exit r3.2 noRaise (none : Option Unit) () ()).bind fun e2 =>
    match e2 with
    | .raise _ _ => none
    | .ok inv2 _ _ => some (inv1, inv2)

section Lemmas

variable {α τ υ β : Type}

/-- When no action raises, the loop runs the whole list and reports no raise. -/
theorem runUntilRaise_of_not_raises (raises : α → Bool) (l : List α)
    (h : ∀ a ∈ l, raises a = false) : runUntilRaise raises l = (l, false) := by
  induction l with
  | nil => rfl
  | cons a rest ih =>
    have ha : raises a = false := h a (List.mem_cons_self a rest)
    have hrest : ∀ b ∈ rest, raises b = false := fun b hb => h b (List.mem_cons_of_mem a hb)
    simp [runUntilRaise, ha, ih hrest]

/-- With the constantly-false raise predicate, the loop runs the whole list. -/
theorem runUntilRaise_false (l : List α) :
    runUntilRaise (fun _ => false) l = (l, false) :=
  runUntilRaise_of_not_raises _ l (fun _ _ => rfl)

/-- If the loop reports no raise, every listed action was invoked. -/
theorem runUntilRaise_fst_of_no_raise (raises : α → Bool) (l : List α)
    (h : (runUntilRaise raises l).2 = false) : (runUntilRaise raises l).1 = l := by
  induction l with
  | nil => rfl
  | cons a rest ih =>
    by_cases ha : raises a = true
    · simp [runUntilRaise, ha] at h
    · simp only [Bool.not_eq_true] at ha
      simp only [runUntilRaise, ha, if_false] at h ⊢
      simpa using ih h

/-- If the loop reports no raise, no listed action raises. -/
theorem runUntilRaise_no_raise_mem (raises : α → Bool) (l : List α)
    (h : (runUntilRaise raises l).2 = false) : ∀ b ∈ l, raises b = false := by
  induction l with
  | nil => simp
  | cons a rest ih =>
    by_cases ha : raises a = true
    · simp [runUntilRaise, ha] at h
    · simp only [Bool.not_eq_true] at ha
      simp only [runUntilRaise, ha, if_false] at h
      intro b hb
      rcases List.mem_cons.mp hb with rfl | hb
      · exact ha
      · exact ih (by simpa using h) b hb

/-- If the loop reports a raise, the invoked actions are an initial segment of
the list ending at the first raising action: every earlier action returned
normally and the remaining actions were skipped. -/
theorem runUntilRaise_raised (raises : α → Bool) (l : List α)
    (h : (runUntilRaise raises l).2 = true) :
    ∃ p a t, l = p ++ a :: t ∧ (runUntilRaise raises l).1 = p ++ [a] ∧
      raises a = true ∧ ∀ b ∈ p, raises b = false := by
  induction l with
  | nil => simp [runUntilRaise] at h
  | cons a rest ih =>
    by_cases ha : raises a = true
    · exact ⟨[], a, rest, by simp, by simp [runUntilRaise, ha], ha, by simp⟩
    · simp only [Bool.not_eq_true] at ha
      simp only [runUntilRaise, ha, if_false] at h ⊢
      obtain ⟨p, b, t, hl, hfst, hb, hp⟩ := ih h
      refine ⟨a :: p, b, t, by simp [hl], by simp [hfst], hb, ?_⟩
      intro c hc
      rcases List.mem_cons.mp hc with rfl | hc
      · exact ha
      · exact hp c hc

/-- Registration sequences: starting from a frame with lists `cb`, `sc`, `fl`
on top, a sequence of registration calls invokes nothing and appends each
registered action, in registration order, to the corresponding list of the top
frame, leaving the frames below untouched. -/
theorem applyOps_spec (ops : List (RegOp α)) (cb sc fl : List α)
    (rest : List (Callback α)) :
    applyOps ⟨⟨cb, sc, fl⟩ :: rest⟩ ops =
      some ([], ⟨⟨cb ++ callRegs ops, sc ++ succRegs ops, fl ++ failRegs ops⟩ :: rest⟩) := by
  induction ops generalizing cb sc fl with
  | nil => simp [applyOps, succRegs, failRegs, callRegs]
  | cons op r ih =>
    cases op with
    | succ a =>
      simp [applyOps, regStep, State.success, succRegs, failRegs, callRegs, ih,
        List.append_assoc]
    | fail a =>
      simp [applyOps, regStep, State.failure, succRegs, failRegs, callRegs, ih,
        List.append_assoc]
    | call a =>
      simp [applyOps, regStep, State.callback, succRegs, failRegs, callRegs, ih,
        List.append_assoc]

/-- A completed (non-raising) exit pops exactly the top frame, returns Python's
`None`, and has invoked the appropriate conditional list followed by the
unconditional list, each in reversed registration order. -/
theorem exit_ok_char (f : Callback α) (rest : List (Callback α)) (raises : α → Bool)
    (et : Option τ) (ev : υ) (tb : β) (inv : List α) (st : List (Callback α))
    (r : Option Unit)
    (h : State.exit ⟨f :: rest⟩ raises et ev tb = some (.ok inv st r)) :
    st = rest ∧ r = none ∧
      inv = (if et.isSome then f.failure.reverse else f.success.reverse) ++
        f.callback.reverse := by
  by_cases h1 : (if et.isSome then runUntilRaise raises f.failure.reverse
      else runUntilRaise raises f.success.reverse).2 = true
  · simp [State.exit, h1] at h
  · simp only [Bool.not_eq_true] at h1
    by_cases h2 : (runUntilRaise raises f.callback.reverse).2 = true
    · simp [State.exit, h1, h2] at h
    · simp only [Bool.not_eq_true] at h2
      simp only [State.exit, h1, h2, Bool.false_eq_true, if_false,
        Option.some.injEq, ExitRes.ok.injEq] at h
      obtain ⟨hinv, hst, hr⟩ := h
      refine ⟨hst.symm, hr.symm, ?_⟩
      have hsecond := runUntilRaise_fst_of_no_raise raises f.callback.reverse h2
      by_cases he : et.isSome = true
      · have hfirst := runUntilRaise_fst_of_no_raise raises f.failure.reverse
          (by simpa [he] using h1)
        simp [← hinv, he, hfirst, hsecond]
      · simp only [Bool.not_eq_true] at he
        have hfirst := runUntilRaise_fst_of_no_raise raises f.success.reverse
          (by simpa [he] using h1)
        simp [← hinv, he, hfirst, hsecond]

end Lemmas

section Claims

variable {α τ υ β : Type}

/-- C1: at every scope exit exactly one of the two conditional lists of the
top frame runs — the failure list when `exc_type` is not `None`, the success
list otherwise — and the unconditional `callback` list runs afterwards in both
cases; the invocation trace is exactly that conditional list (reversed)
followed by the reversed unconditional list, so no action of the other
conditional list is invoked. -/
theorem exit_runs_exactly_one_conditional_list_then_callbacks
    (f : Callback α) (rest : List (Callback α)) (exc_type : Option τ)
    (ev : υ) (tb : β) :
    State.exit ⟨f :: rest⟩ (fun _ => false) exc_type ev tb =
      some (.ok ((if exc_type.isSome then f.failure.reverse else f.success.reverse) ++
        f.callback.reverse) rest none) := by
  cases exc_type <;> simp [State.exit, runUntilRaise_false]

/-- C2: after entering a scope and performing any sequence of registrations,
the exit invokes the actions of each list that runs in reverse registration
order: the failure registrations (reversed) on a failing exit, the success
registrations (reversed) on a normal exit, then the unconditional
registrations (reversed). -/
theorem exit_invokes_lists_in_reverse_registration_order
    (s₀ : State α) (ops : List (RegOp α)) (exc_type : Option τ) (ev : υ) (tb : β) :
    (applyOps s₀.enter ops).bind
        (fun r => State.exit r.2 (fun _ => false) exc_type ev tb) =
      some (.ok ((if exc_type.isSome then (failRegs ops).reverse
          else (succRegs ops).reverse) ++ (callRegs ops).reverse) s₀.stack none) := by
  have h := applyOps_spec ops ([] : List α) [] [] s₀.stack
  rw [State.enter, h]
  cases exc_type <;> simp [State.exit, runUntilRaise_false]

/-- C3: entering a scope on a fresh state, registering
`failure₁, callback₁, success₁, callback₂, failure₂` and exiting normally
invokes exactly `success₁, callback₂, callback₁` in that order (unconditional
actions in reverse order, action 2 before action 1), never invokes either
failure action, and tallies to `(s, f, c) = (1, 0, 2)`. -/
theorem scenario_mixed_registrations_success_exit :
    ((applyOps (State.init Act).enter orderOps).bind
        (fun r => State.exit r.2 noRaise (none : Option Unit) () ())) =
      some (.ok [.sA 1, .cA 2, .cA 1] [⟨[], [], []⟩] none) ∧
    tally [.sA 1, .cA 2, .cA 1] = (1, 0, 2) ∧
    (Act.fA 1 ∉ [Act.sA 1, Act.cA 2, Act.cA 1]) ∧
    (Act.fA 2 ∉ [Act.sA 1, Act.cA 2, Act.cA 1]) := by
  refine ⟨by decide, by decide, by decide, by decide⟩

/-- C4: an inner scope's completed exit only pops the inner frame, so the
outer scope's subsequent exit behaves exactly as if performed directly on the
remaining stack, whatever the inner exit's error signal was; in the concrete
nested scenario the inner failing exit invokes `failure₂, callback₂` (inner
tally `(0, 1, 1)`) and the outer normal exit then invokes
`success₁, callback₁`, for a final cumulative tally `(1, 1, 2)`. -/
theorem inner_scope_failure_independent_of_outer
    (g : Callback Act) (stack2 : List (Callback Act)) (etI etO : Option Unit)
    (invI : List Act) (stI : List (Callback Act)) (retI : Option Unit)
    (h : State.exit ⟨g :: stack2⟩ noRaise etI () () = some (.ok invI stI retI)) :
    State.exit (⟨stI⟩ : State Act) noRaise etO () () =
      State.exit (⟨stack2⟩ : State Act) noRaise etO () () ∧
    scenarioNested = some ([.fA 2, .cA 2], [.sA 1, .cA 1]) ∧
    tally [.fA 2, .cA 2] = (0, 1, 1) ∧
    tally ([.fA 2, .cA 2] ++ [.sA 1, .cA 1]) = (1, 1, 2) := by
  obtain ⟨hst, -, -⟩ := exit_ok_char g stack2 noRaise etI () () invI stI retI h
  exact ⟨by rw [hst], by decide, by decide, by decide⟩

/-- Witness for C4 at a concrete input: the inner exit on a fresh entered
state pops back to the empty stack, and the scenario equalities hold. -/
theorem inner_scope_failure_independent_of_outer_witness :
    (State.exit (State.init Act) noRaise (some ()) () () =
      some (.ok [] [] none)) ∧
    (State.exit (⟨[]⟩ : State Act) noRaise (none : Option Unit) () () =
        State.exit (⟨[]⟩ : State Act) noRaise (none : Option Unit) () () ∧
      scenarioNested = some ([.fA 2, .cA 2], [.sA 1, .cA 1]) ∧
      tally [.fA 2, .cA 2] = (0, 1, 1) ∧
      tally ([.fA 2, .cA 2] ++ [.sA 1, .cA 1]) = (1, 1, 2)) :=
  ⟨by decide, inner_scope_failure_independent_of_outer ⟨[], [], []⟩ []
    (some ()) none [] [] none (by decide)⟩

/-- C5: on any state with a top frame, each registration method appends its
action to exactly the corresponding list of the top frame, invokes nothing
(empty invocation trace — no registered action runs before its scope exits),
and leaves the other two lists of the top frame and all frames below
unchanged. -/
theorem registration_targets_top_frame_only
    (s : State α) (f : Callback α) (rest : List (Callback α)) (a : α)
    (h : s.stack = f :: rest) :
    s.success a = some ([], ⟨{ f with success := f.success ++ [a] } :: rest⟩) ∧
    s.failure a = some ([], ⟨{ f with failure := f.failure ++ [a] } :: rest⟩) ∧
    s.callback a = some ([], ⟨{ f with callback := f.callback ++ [a] } :: rest⟩) := by
  cases s
  cases h
  exact ⟨rfl, rfl, rfl⟩

/-- Witness for C5 at a concrete input: registering on the fresh root frame. -/
theorem registration_targets_top_frame_only_witness :
    ((State.init Act).stack = ⟨[], [], []⟩ :: []) ∧
    ((State.init Act).success (.sA 0) = some ([], ⟨[⟨[], [.sA 0], []⟩]⟩) ∧
      (State.init Act).failure (.sA 0) = some ([], ⟨[⟨[], [], [.sA 0]⟩]⟩) ∧
      (State.init Act).callback (.sA 0) = some ([], ⟨[⟨[.sA 0], [], []⟩]⟩)) :=
  ⟨rfl, registration_targets_top_frame_only (State.init Act) ⟨[], [], []⟩ []
    (.sA 0) rfl⟩

/-- C6: a completed exit pops exactly the top frame — the resulting stack is
precisely the list of frames below the top, so the depth drops by one, every
lower frame is unchanged and any later exit operates only on frames still on
the stack — and the pop happens only after the frame's callbacks have run
(the trace is the full conditional-then-unconditional run). -/
theorem exit_pops_exactly_top_frame
    (f : Callback α) (rest : List (Callback α)) (raises : α → Bool)
    (et : Option τ) (ev : υ) (tb : β) (inv : List α) (st : List (Callback α))
    (r : Option Unit)
    (h : State.exit ⟨f :: rest⟩ raises et ev tb = some (.ok inv st r)) :
    st = rest ∧
      inv = (if et.isSome then f.failure.reverse else f.success.reverse) ++
        f.callback.reverse := by
  obtain ⟨h1, -, h3⟩ := exit_ok_char f rest raises et ev tb inv st r h
  exact ⟨h1, h3⟩

/-- Witness for C6 at a concrete input: a failing exit over a two-frame
stack pops only the top frame. -/
theorem exit_pops_exactly_top_frame_witness :
    (State.exit (⟨[⟨[.cA 1], [.sA 1], [.fA 1]⟩, ⟨[], [], []⟩]⟩ : State Act)
        noRaise (some ()) () () =
      some (.ok [.fA 1, .cA 1] [⟨[], [], []⟩] none)) ∧
    ([(⟨[], [], []⟩ : Callback Act)] = [⟨[], [], []⟩] ∧
      [Act.fA 1, Act.cA 1] =
        (if (some ()).isSome then [Act.fA 1].reverse else [Act.sA 1].reverse) ++
          [Act.cA 1].reverse) :=
  ⟨by decide, exit_pops_exactly_top_frame ⟨[.cA 1], [.sA 1], [.fA 1]⟩
    [⟨[], [], []⟩] noRaise (some ()) () () [.fA 1, .cA 1] [⟨[], [], []⟩] none
    (by decide)⟩

/-- C7 counterexample: on a fresh `State` (which holds one root frame), an
exit with no matching enter does not fail fast — it succeeds, invoking
nothing and silently popping the root frame. -/
theorem unmatched_exit_on_fresh_state_does_not_fail :
    State.exit (State.init Act) noRaise (none : Option Unit) () () ≠ none ∧
    State.exit (State.init Act) noRaise (none : Option Unit) () () =
      some (.ok [] [] none) :=
  ⟨by decide, by decide⟩

/-- C7 amended: once the frame stack is empty (the root frame having been
popped by an unmatched exit), every registration operation and every further
exit fails fast with the empty-stack fault (`none`, Python's `IndexError`)
rather than silently doing nothing; the first unmatched exit itself is not a
fault — it silently pops the root frame. -/
theorem empty_stack_operations_fail_fast
    (s : State α) (a : α) (raises : α → Bool) (et : Option τ) (ev : υ) (tb : β)
    (h : s.stack = []) :
    s.success a = none ∧ s.failure a = none ∧ s.callback a = none ∧
      State.exit s raises et ev tb = none := by
  cases s
  cases h
  exact ⟨rfl, rfl, rfl, rfl⟩

/-- Witness for the amended C7 at a concrete input: the empty-stack state. -/
theorem empty_stack_operations_fail_fast_witness :
    ((⟨[]⟩ : State Act).stack = []) ∧
    ((⟨[]⟩ : State Act).success (.sA 0) = none ∧
      (⟨[]⟩ : State Act).failure (.sA 0) = none ∧
      (⟨[]⟩ : State Act).callback (.sA 0) = none ∧
      State.exit (⟨[]⟩ : State Act) noRaise (none : Option Unit) () () = none) :=
  ⟨rfl, empty_stack_operations_fail_fast ⟨[]⟩ (.sA 0) noRaise none () () rfl⟩

/-- C8: when a scope exits via a protected-block error (`exc_type` present)
and no registered action itself raises, the exit runs the failure list and
then the unconditional list (each in reversed registration order) and
completes, returning `none` — Python's implicitly returned falsy `None` —
so the context-manager protocol does not suppress the error and the
identical error reaches the caller; the error value and traceback are never
inspected. -/
theorem failing_exit_returns_falsy_after_failure_then_callbacks
    (f : Callback α) (rest : List (Callback α)) (et : Option τ) (ev : υ) (tb : β)
    (h : et.isSome = true) :
    State.exit ⟨f :: rest⟩ (fun _ => false) et ev tb =
      some (.ok (f.failure.reverse ++ f.callback.reverse) rest none) := by
  cases et with
  | none => cases h
  | some e => simp [State.exit, runUntilRaise_false]

/-- Witness for C8 at a concrete input: a failing exit with one failure and
one unconditional action. -/
theorem failing_exit_returns_falsy_after_failure_then_callbacks_witness :
    ((some () : Option Unit).isSome = true) ∧
    State.exit (⟨[⟨[.cA 1], [.sA 1], [.fA 1]⟩]⟩ : State Act)
        (fun _ => false) (some ()) () () =
      some (.ok [Act.fA 1, Act.cA 1] [] none) :=
  ⟨rfl, failing_exit_returns_falsy_after_failure_then_callbacks
    (⟨[.cA 1], [.sA 1], [.fA 1]⟩ : Callback Act) [] (some ()) () () rfl⟩

/-- C9: if an invoked action raises during an exit, the exception propagates
immediately: the frame stack comes back unchanged (the top frame is not
popped and all its lists are intact), the invoked trace is an initial
segment of the full run — the remaining actions are the skipped suffix —
and its last element is the raising action, every earlier invoked action
having returned normally. -/
theorem raising_action_aborts_exit_and_preserves_stack
    (f : Callback α) (rest : List (Callback α)) (raises : α → Bool)
    (et : Option τ) (ev : υ) (tb : β) (inv : List α) (st : List (Callback α))
    (h : State.exit ⟨f :: rest⟩ raises et ev tb = some (.raise inv st)) :
    st = f :: rest ∧
    (∃ skipped, (if et.isSome then f.failure.reverse else f.success.reverse) ++
      f.callback.reverse = inv ++ skipped) ∧
    (∃ p a, inv = p ++ [a] ∧ raises a = true ∧ ∀ b ∈ p, raises b = false) := by
  have hcomm : (if et.isSome then runUntilRaise raises f.failure.reverse
      else runUntilRaise raises f.success.reverse) =
      runUntilRaise raises
        (if et.isSome then f.failure.reverse else f.success.reverse) :=
    (apply_ite (runUntilRaise raises) et.isSome f.failure.reverse
      f.success.reverse).symm
  by_cases h1 : (runUntilRaise raises
      (if et.isSome then f.failure.reverse else f.success.reverse)).2 = true
  · simp only [State.exit, hcomm, h1, if_true, Option.some.injEq,
      ExitRes.raise.injEq] at h
    obtain ⟨hinv, hst⟩ := h
    obtain ⟨p, a, t, hl, hfst, ha, hp⟩ := runUntilRaise_raised raises _ h1
    refine ⟨hst.symm, ⟨t ++ f.callback.reverse, ?_⟩, ⟨p, a, ?_, ha, hp⟩⟩
    · rw [hl, ← hinv, hfst]
      simp
    · rw [← hinv, hfst]
  · simp only [Bool.not_eq_true] at h1
    by_cases h2 : (runUntilRaise raises f.callback.reverse).2 = true
    · simp only [State.exit, hcomm, h1, Bool.false_eq_true, if_false, h2,
        if_true, Option.some.injEq, ExitRes.raise.injEq] at h
      obtain ⟨hinv, hst⟩ := h
      have hbranch := runUntilRaise_fst_of_no_raise raises _ h1
      have hbmem := runUntilRaise_no_raise_mem raises _ h1
      obtain ⟨p, a, t, hl, hfst, ha, hp⟩ := runUntilRaise_raised raises _ h2
      refine ⟨hst.symm, ⟨t, ?_⟩, ⟨(if et.isSome then f.failure.reverse
        else f.success.reverse) ++ p, a, ?_, ha, ?_⟩⟩
      · rw [hl, ← hinv, hfst, hbranch]
        simp
      · rw [← hinv, hfst, hbranch]
        simp
      · intro b hb
        rcases List.mem_append.mp hb with hb | hb
        · exact hbmem b hb
        · exact hp b hb
    · simp only [Bool.not_eq_true] at h2
      simp [State.exit, hcomm, h1, h2] at h

/-- Witness for C9 at a concrete input: a failing exit whose single failure
action raises. -/
theorem raising_action_aborts_exit_and_preserves_stack_witness :
    (State.exit (⟨[⟨[.cA 1], [], [.fA 1]⟩]⟩ : State Act)
        (fun a => decide (a = Act.fA 1)) (some ()) () () =
      some (.raise [Act.fA 1] [⟨[.cA 1], [], [.fA 1]⟩])) ∧
    ([(⟨[.cA 1], [], [.fA 1]⟩ : Callback Act)] = [⟨[.cA 1], [], [.fA 1]⟩] ∧
      (∃ skipped,
        (if (some ()).isSome then [Act.fA 1].reverse else ([] : List Act).reverse) ++
          [Act.cA 1].reverse = [Act.fA 1] ++ skipped) ∧
      (∃ p a, [Act.fA 1] = p ++ [a] ∧ decide (a = Act.fA 1) = true ∧
        ∀ b ∈ p, decide (b = Act.fA 1) = false)) :=
  ⟨by decide, raising_action_aborts_exit_and_preserves_stack
    ⟨[.cA 1], [], [.fA 1]⟩ [] (fun a => decide (a = Act.fA 1)) (some ()) () ()
    [Act.fA 1] [⟨[.cA 1], [], [.fA 1]⟩] (by decide)⟩

/-- C10: the exit's outcome depends only on whether `exc_type` is `None`
(and on the state and the actions' own behaviour) — the exception value and
traceback arguments, of arbitrary types, have no influence: two exits of the
same state whose `exc_type` arguments agree on being `None` produce
identical results. -/
theorem exit_depends_only_on_exc_type_presence
    {τ₁ τ₂ υ₁ υ₂ β₁ β₂ : Type}
    (s : State α) (raises : α → Bool) (et1 : Option τ₁) (et2 : Option τ₂)
    (ev1 : υ₁) (ev2 : υ₂) (tb1 : β₁) (tb2 : β₂)
    (h : et1.isSome = et2.isSome) :
    State.exit s raises et1 ev1 tb1 = State.exit s raises et2 ev2 tb2 := by
  obtain ⟨stack⟩ := s
  cases stack with
  | nil => rfl
  | cons f rest => simp only [State.exit, h]

/-- Witness for C10 at a concrete input: error objects of entirely different
types and different value/traceback arguments give the same exit result. -/
theorem exit_depends_only_on_exc_type_presence_witness :
    ((some 0 : Option Nat).isSome = (some true : Option Bool).isSome) ∧
    State.exit (State.init Act) noRaise (some 0) 3 false =
      State.exit (State.init Act) noRaise (some true) () 7 :=
  ⟨rfl, exit_depends_only_on_exc_type_presence (State.init Act) noRaise
    (some 0) (some true) 3 () false 7 rfl⟩

end Claims
